import Mathlib

/-!
Verification of the localization resource engine of the dietitian client
tracker (`src/app/i18n/translations.py`, class `TranslationService`).

The engine's process-wide class state is embedded as an explicit `TState`
record threaded through each operation.  JSON bundle values are embedded as
`Val` (a leaf string or a nested mapping, per the resource format of the
spec: nested mappings of string keys with string leaves); Python `dict`s
become insertion-ordered association lists (Python dicts cannot hold a key
twice, so every reachable dict is such a list), Python sets of keys become
`Finset String`, and raising is modelled by explicit result constructors.

`str.format` (called by `get` at `translations.py:165` with keyword
arguments only) is modelled by `pyFormat`, an operational scanner faithful
to CPython for templates whose replacement fields are simple names:
`\x7b\x7b`/`\x7d\x7d` escapes, a lone `\x7d` or an unterminated/brace-containing field
raise `ValueError`, an empty or all-digit field name raises `IndexError`
(there are no positional arguments), a missing keyword name raises
`KeyError`, attribute/index access on a keyword value raises
`AttributeError`, and a conversion or format spec is applied as the
identity (the repository's templates carry none).
-/

/-- A Python value inside a loaded translation bundle: a leaf string or a
nested mapping (modelled as an insertion-ordered association list). -/
inductive Val where
  | vstr (s : String)
  | vdict (entries : List (String × Val))

/-- One language's bundle: the top-level mapping produced by `json.load`
(the source annotates `_translations : Dict[str, Dict[str, Any]]`). -/
abbrev Bundle := List (String × Val)

/-- `dict.get`: the value at the first occurrence of key `k`, if any. -/
def alookup {α : Type} (m : List (String × α)) (k : String) : Option α :=
  match m with
  | [] => none
  | (k', v) :: rest => if k' = k then some v else alookup rest k

/-- `dict[k] = v`: replace in place if `k` is present, else append. -/
def assocSet {α : Type} (m : List (String × α)) (k : String) (v : α) :
    List (String × α) :=
  if (alookup m k).isSome then
    m.map (fun p => if p.1 = k then (k, v) else p)
  else m ++ [(k, v)]

/-- The class-level mutable state of `TranslationService`
(`translations.py:25-29`): `_current_language`, `_translations`,
`_is_loaded`, `_debug_mode` and `_missing_keys` (a set, modelled as the
list of its elements). -/
structure TState where
  current_language : String
  translations : List (String × Bundle)
  is_loaded : Bool
  debug_mode : Bool
  missing_keys : List String

/-- Python `str.split(sep)` on the character list: `""` splits to `[""]`,
separators at the ends produce empty segments. -/
def pySplit (sep : Char) : List Char → List (List Char)
  | [] => [[]]
  | c :: rest =>
    match pySplit sep rest with
    | [] => [[]]
    | g :: gs => if c = sep then [] :: g :: gs else (c :: g) :: gs

/-- `key.split(".")` at `translations.py:140`. -/
def splitKey (key : String) : List String :=
  (pySplit '.' key.data).map (fun cs => String.mk cs)

/-- Python truthiness of a bundle value: the empty string and the empty
mapping are falsy (`result = value if value else default`,
`translations.py:160`). -/
def Val.truthy : Val → Bool
  | .vstr s => !(s == "")
  | .vdict m => !m.isEmpty

/-- The segment walk of `get` (`translations.py:143-158`): step into
mappings segment by segment; an absent segment, or a leaf reached with
segments left over, is a miss (`none`).  Ending on any value — including
an interior mapping — yields that value. -/
def walk : Val → List String → Option Val
  | v, [] => some v
  | .vdict m, k :: ks =>
    match alookup m k with
    | some v => walk v ks
    | none => none
  | .vstr _, _ :: _ => none

/-- The exceptions `str.format` can raise on the modelled subset. -/
inductive PyErr where
  | keyError (name : String)
  | valueError
  | indexError
  | attributeError
deriving DecidableEq

/-- Resolve one replacement field of `str.format` against keyword
arguments: `field_name[!conversion][:format_spec]`, whose `field_name` is
`arg_name` followed by attribute/index accessors.  An empty or all-digit
`arg_name` is positional auto-numbering — `IndexError`, since `get` passes
keyword arguments only; an absent keyword is a `KeyError`; an accessor on
a resolved string value is an `AttributeError`; conversion and format spec
are applied as the identity. -/
def substField (kwargs : List (String × String)) (content : List Char) :
    Except PyErr String :=
  let namePart := content.takeWhile (fun c => c != '!' && c != ':')
  let base := namePart.takeWhile (fun c => c != '.' && c != '[')
  if base.isEmpty || base.all Char.isDigit then .error .indexError
  else
    match alookup kwargs (String.mk base) with
    | none => .error (.keyError (String.mk base))
    | some v => if base == namePart then .ok v else .error .attributeError

/-- The scanner of `str.format`: left to right, substituting each field as
it is parsed and raising at the first problem.  The first argument is
`none` in literal text, `some acc` inside a replacement field with the
field's characters accumulated in reverse. -/
def pyFormatGo (kwargs : List (String × String)) :
    Option (List Char) → List Char → Except PyErr String
  | none, [] => .ok ""
  | none, c :: rest =>
    if c = '}' then
      match rest with
      | [] => .error .valueError
      | c2 :: rest2 =>
        if c2 = '}' then (fun r => "\x7d" ++ r) <$> pyFormatGo kwargs none rest2
        else .error .valueError
    else if c = '{' then
      match rest with
      | [] => pyFormatGo kwargs (some []) []
      | c2 :: rest2 =>
        if c2 = '{' then (fun r => "\x7b" ++ r) <$> pyFormatGo kwargs none rest2
        else pyFormatGo kwargs (some []) (c2 :: rest2)
    else (fun r => c.toString ++ r) <$> pyFormatGo kwargs none rest
  | some _, [] => .error .valueError
  | some acc, c :: rest =>
    if c = '{' then .error .valueError
    else if c = '}' then
      (substField kwargs acc.reverse) >>= fun v =>
        (fun r => v ++ r) <$> pyFormatGo kwargs none rest
    else pyFormatGo kwargs (some (c :: acc)) rest

/-- `template.format(**kwargs)` on the modelled subset. -/
def pyFormat (tpl : String) (kwargs : List (String × String)) :
    Except PyErr String :=
  pyFormatGo kwargs none tpl.data

/-- What a call to `get` does to the caller: return a Python value, or
raise an exception that escaped the `except KeyError` handler. -/
inductive GetResult where
  | retn (v : Val)
  | raised (e : PyErr)

/-- `cls._translations.get(cls._current_language, {})`
(`translations.py:141`). -/
def startVal (s : TState) : Val :=
  .vdict ((alookup s.translations s.current_language).getD [])

/-- `TranslationService.get` (`translations.py:117-171`): returns
`default` when the service is not loaded or the walk misses (recording the
key in the missing-key set when debug mode is on and it is new); a falsy
resolved value is replaced by `default`; with non-empty keyword arguments
and a string result, `str.format` is attempted, a `KeyError` is caught
(keeping the unformatted string) and every other exception propagates. -/
def TranslationService.get (s : TState) (key : String) (default : String)
    (kwargs : List (String × String)) : GetResult × TState :=
  if s.is_loaded = false then (.retn (.vstr default), s)
  else
    let keys := splitKey key
    match walk (startVal s) keys with
    | none =>
      let s' :=
        if s.debug_mode = true ∧ key ∉ s.missing_keys then
          { s with missing_keys := key :: s.missing_keys }
        else s
      (.retn (.vstr default), s')
    | some value =>
      let result := if value.truthy then value else Val.vstr default
      match kwargs, result with
      | [], _ => (.retn result, s)
      | _ :: _, .vdict m => (.retn (.vdict m), s)
      | _ :: _, .vstr t =>
        match pyFormat t kwargs with
        | .ok r => (.retn (.vstr r), s)
        | .error (.keyError _) => (.retn (.vstr t), s)
        | .error e => (.raised e, s)

/-- `TranslationService.set_language` (`translations.py:173-198`): a
warning and plain return when not loaded; switch when the language is
loaded; otherwise raise `ValueError` (`.fst = true`) leaving the state
unchanged. -/
def TranslationService.set_language (s : TState) (language : String) :
    Bool × TState :=
  if s.is_loaded = false then (false, s)
  else if (alookup s.translations language).isSome then
    (false, { s with current_language := language })
  else (true, s)

/-- `TranslationService.get_current_language` (`translations.py:200-203`). -/
def TranslationService.get_current_language (s : TState) : String :=
  s.current_language

/-- `TranslationService._load_translations` (`translations.py:67-114`),
abstracting the directory scan: `fs` lists the discovered `.json` files as
(language code, parse result); a file that fails to open or parse
(`none`) is logged and skipped, a parsed one is stored under its code. -/
def load_translations (s : TState) (fs : List (String × Option Bundle)) :
    TState :=
  { s with
    translations := fs.foldl (fun acc p =>
      match p.2 with
      | some b => assocSet acc p.1 b
      | none => acc) s.translations }

/-- The observable outcome of one `initialize` call: the final state,
whether `ValueError` was raised, and whether the resource files were
parsed (`_load_translations` ran). -/
structure InitResult where
  state : TState
  raised : Bool
  parsed : Bool

/-- `TranslationService.initialize` (`translations.py:31-65`): set the
debug flag; load the resource files only if not already loaded; then set
the active language to `language` if loaded, else to `"en"` if loaded,
else raise `ValueError` leaving the active pointer unchanged. -/
def TranslationService.init (s : TState) (fs : List (String × Option Bundle))
    (language : String) (debug : Bool) : InitResult :=
  let s1 := { s with debug_mode := debug }
  let s2 := if s1.is_loaded = true then s1
            else { load_translations s1 fs with is_loaded := true }
  let parsed := !s1.is_loaded
  if (alookup s2.translations language).isSome then
    ⟨{ s2 with current_language := language }, false, parsed⟩
  else if (alookup s2.translations "en").isSome then
    ⟨{ s2 with current_language := "en" }, false, parsed⟩
  else ⟨s2, true, parsed⟩

/-- `f"\x7bprefix\x7d.\x7bk\x7d" if prefix else k` (`translations.py:256`). -/
def fullKey (pre k : String) : String :=
  if pre = "" then k else pre ++ "." ++ k

/-- `TranslationService._get_all_keys` (`translations.py:251-261`): the
set of accumulated keys of all leaf (non-mapping) values of a nested
bundle; interior mappings contribute only through their descendants. -/
def get_all_keys : Bundle → String → Finset String
  | [], _ => ∅
  | (k, Val.vstr _) :: rest, pre => insert (fullKey pre k) (get_all_keys rest pre)
  | (k, Val.vdict m) :: rest, pre => get_all_keys m (fullKey pre k) ∪ get_all_keys rest pre

/-- One language's entry in the consistency report
(`translations.py:242-247`). -/
structure LangReport where
  key_count : Nat
  missing_keys : List String
  extra_keys : List String
  is_consistent : Bool

/-- The consistency report (`translations.py:231-235`). -/
structure Report where
  reference_language : String
  reference_key_count : Nat
  languages : List (String × LangReport)

/-- `TranslationService.validate_keys_consistency`
(`translations.py:211-249`): `none` models the empty report `\x7b\x7d` returned
when nothing is loaded; otherwise the reference is `"en"` when loaded,
else the first loaded language, and every language is diffed against it. -/
def TranslationService.validate_keys_consistency (s : TState) : Option Report :=
  match s.translations with
  | [] => none
  | (l0, _) :: _ =>
    let reference_lang := if (alookup s.translations "en").isSome then "en" else l0
    let reference_keys := get_all_keys ((alookup s.translations reference_lang).getD []) ""
    some
      { reference_language := reference_lang
        reference_key_count := reference_keys.card
        languages := s.translations.map (fun p =>
          let lang_keys := get_all_keys p.2 ""
          let missing := reference_keys \ lang_keys
          let extra := lang_keys \ reference_keys
          (p.1,
            { key_count := lang_keys.card
              missing_keys := missing.sort (· ≤ ·)
              extra_keys := extra.sort (· ≤ ·)
              is_consistent := missing.card == 0 && extra.card == 0 })) }

/-- A loaded service state holding the single bundle `b` under language
`"en"`, which is also active. -/
def loadedState (b : Bundle) : TState :=
  { current_language := "en"
    translations := [("en", b)]
    is_loaded := true
    debug_mode := false
    missing_keys := [] }

/-- The state at process start, before any call to `initialize`. -/
def freshState : TState :=
  { current_language := "en"
    translations := []
    is_loaded := false
    debug_mode := false
    missing_keys := [] }

/-- Specification-side view of flattening: `p` is the list of segment
names along a root-to-leaf path of the bundle (the leaf being a
non-mapping value). -/
inductive LeafPath : Bundle → List String → Prop where
  | head_leaf (k : String) (s : String) (rest : Bundle) :
      LeafPath ((k, Val.vstr s) :: rest) [k]
  | head_node {m : Bundle} {p : List String} (k : String) (rest : Bundle) :
      LeafPath m p → LeafPath ((k, Val.vdict m) :: rest) (k :: p)
  | tail (e : String × Val) {rest : Bundle} {p : List String} :
      LeafPath rest p → LeafPath (e :: rest) p

/-- The key the engine accumulates along a path: each segment is joined
onto the prefix with `fullKey` (a dot unless the accumulated prefix is
empty). -/
def pathJoin (pre : String) (p : List String) : String := p.foldl fullKey pre

/-- Specification-side view of a template: a sequence of literal pieces
and named replacement fields. -/
inductive Chunk where
  | lit (t : String)
  | fld (name : String)

/-- The template text a chunk renders to. -/
def renderChunk : Chunk → String
  | .lit t => t
  | .fld n => "\x7b" ++ n ++ "\x7d"

/-- The template text a chunk list renders to. -/
def renderChunks : List Chunk → String
  | [] => ""
  | c :: cs => renderChunk c ++ renderChunks cs

/-- The fully substituted text of a chunk list: literals verbatim, each
field replaced by its keyword argument. -/
def substChunk (kwargs : List (String × String)) : Chunk → String
  | .lit t => t
  | .fld n => ((alookup kwargs n).getD "")

/-- The fully substituted text of a chunk list. -/
def substChunks (kwargs : List (String × String)) : List Chunk → String
  | [] => ""
  | c :: cs => substChunk kwargs c ++ substChunks kwargs cs

/-- A literal character that neither opens nor closes a replacement
field. -/
def litCharOk (c : Char) : Prop := c ≠ '{' ∧ c ≠ '}'

/-- A character allowed in a simple field name: no braces, conversion,
format spec, attribute or index accessor. -/
def nameCharOk (c : Char) : Prop :=
  c ≠ '{' ∧ c ≠ '}' ∧ c ≠ '!' ∧ c ≠ ':' ∧ c ≠ '.' ∧ c ≠ '['

/-- A well-formed chunk: literal text free of brace characters, and field
names that are non-empty simple names (an all-digit name would be a
positional index). -/
def chunkOk : Chunk → Prop
  | .lit t => ∀ c ∈ t.data, litCharOk c
  | .fld n => n ≠ "" ∧ ¬(n.data.all Char.isDigit = true) ∧ ∀ c ∈ n.data, nameCharOk c

instance (c : Char) : Decidable (litCharOk c) :=
  decidable_of_iff (c ≠ '{' ∧ c ≠ '}') Iff.rfl

instance (c : Char) : Decidable (nameCharOk c) :=
  decidable_of_iff (c ≠ '{' ∧ c ≠ '}' ∧ c ≠ '!' ∧ c ≠ ':' ∧ c ≠ '.' ∧ c ≠ '[') Iff.rfl

instance (ch : Chunk) : Decidable (chunkOk ch) :=
  match ch with
  | .lit t => decidable_of_iff (∀ c ∈ t.data, litCharOk c) Iff.rfl
  | .fld n =>
    decidable_of_iff
      (n ≠ "" ∧ ¬(n.data.all Char.isDigit = true) ∧ ∀ c ∈ n.data, nameCharOk c) Iff.rfl

theorem init_state_translations (s : TState) (fs : List (String × Option Bundle))
    (language : String) (debug : Bool) :
    (TranslationService.init s fs language debug).state.translations
      = (if s.is_loaded = true then s.translations
         else (load_translations { s with debug_mode := debug } fs).translations) := by
  simp only [TranslationService.init]
  split_ifs <;> simp_all

theorem init_state_is_loaded (s : TState) (fs : List (String × Option Bundle))
    (language : String) (debug : Bool) :
    (TranslationService.init s fs language debug).state.is_loaded = true := by
  simp only [TranslationService.init]
  split_ifs <;> simp_all

theorem init_parsed (s : TState) (fs : List (String × Option Bundle))
    (language : String) (debug : Bool) :
    (TranslationService.init s fs language debug).parsed = !s.is_loaded := by
  simp only [TranslationService.init]
  split_ifs <;> simp_all

/-- C7: loading is idempotent: after a first call to `initialize`, a second
call leaves the mapping from language codes to bundles exactly as the first
call left it, and performs no further resource-file parsing. -/
theorem C7_second_init_is_noop (s : TState) (fs : List (String × Option Bundle))
    (l1 : String) (d1 : Bool) (fs2 : List (String × Option Bundle)) (l2 : String) (d2 : Bool) :
    (TranslationService.init (TranslationService.init s fs l1 d1).state fs2 l2 d2).state.translations
      = (TranslationService.init s fs l1 d1).state.translations
    ∧ (TranslationService.init (TranslationService.init s fs l1 d1).state fs2 l2 d2).parsed = false := by
  constructor
  · rw [init_state_translations, init_state_is_loaded]
    simp
  · rw [init_parsed, init_state_is_loaded]
    rfl

/-- C1: the claimed no-throw/string-return guarantee of `get` fails on the
code: with a loaded bundle whose leaf template is a single open brace and
a placeholder supplied, `str.format` raises `ValueError`, which the
handler at `translations.py:166` (`except KeyError` only) does not catch,
so `get` raises. -/
theorem C1_get_raises_on_malformed_template :
    (TranslationService.get (loadedState [("k", Val.vstr "\x7b")]) "k" "d" [("x", "1")]).fst
      = GetResult.raised PyErr.valueError := rfl

/-- C2: the claimed miss-on-interior-mapping behaviour fails on the code:
when the segment walk ends on a non-empty interior mapping, `result =
value if value else default` (`translations.py:160`) keeps the truthy
mapping, so `get` returns the mapping itself, not the caller's default. -/
theorem C2_get_returns_interior_mapping :
    (TranslationService.get (loadedState [("a", Val.vdict [("b", Val.vstr "x")])]) "a" "DEFAULT" []).fst
      = GetResult.retn (Val.vdict [("b", Val.vstr "x")])
    ∧ (TranslationService.get (loadedState [("a", Val.vdict [("b", Val.vstr "x")])]) "a" "DEFAULT" []).fst
      ≠ GetResult.retn (Val.vstr "DEFAULT") := by
  constructor
  · rfl
  · simp [TranslationService.get, loadedState, startVal, splitKey, pySplit, walk, alookup, Val.truthy]

/-- C3 counterexample: with nothing loaded, `set_language("xx")` does not
raise (the guard at `translations.py:184-186` logs a warning and returns),
contradicting the claim that every unloaded code raises even when nothing
has been loaded at all. -/
theorem C3_counterexample_unloaded_no_raise :
    (TranslationService.set_language freshState "xx").fst = false
    ∧ (TranslationService.set_language freshState "xx").snd = freshState :=
  ⟨rfl, rfl⟩

/-- C3 amended: once the service has loaded, switching to a language with
no loaded bundle raises `ValueError` and leaves the current language
unchanged, and switching to a loaded language succeeds and sets it; when
the service has not loaded, `set_language` never raises and leaves the
state unchanged. -/
theorem C3_set_language_cases (s : TState) (language : String) :
    (s.is_loaded = true → alookup s.translations language = none →
      (TranslationService.set_language s language).fst = true
      ∧ TranslationService.get_current_language (TranslationService.set_language s language).snd
          = TranslationService.get_current_language s)
    ∧ (s.is_loaded = true → (alookup s.translations language).isSome = true →
      (TranslationService.set_language s language).fst = false
      ∧ TranslationService.get_current_language (TranslationService.set_language s language).snd
          = language)
    ∧ (s.is_loaded = false →
      (TranslationService.set_language s language).fst = false
      ∧ (TranslationService.set_language s language).snd = s) := by
  refine ⟨fun hl hn => ?_, fun hl hs => ?_, fun hl => ?_⟩ <;>
    simp_all [TranslationService.set_language, TranslationService.get_current_language]

theorem C3_set_language_cases_witness :
    ((TranslationService.set_language (loadedState [("a", Val.vstr "x")]) "xx").fst = true
      ∧ TranslationService.get_current_language
          (TranslationService.set_language (loadedState [("a", Val.vstr "x")]) "xx").snd
        = TranslationService.get_current_language (loadedState [("a", Val.vstr "x")]))
    ∧ ((TranslationService.set_language (loadedState [("a", Val.vstr "x")]) "en").fst = false
      ∧ TranslationService.get_current_language
          (TranslationService.set_language (loadedState [("a", Val.vstr "x")]) "en").snd
        = "en")
    ∧ ((TranslationService.set_language freshState "xx").fst = false
      ∧ (TranslationService.set_language freshState "xx").snd = freshState) :=
  ⟨(C3_set_language_cases (loadedState [("a", Val.vstr "x")]) "xx").1 rfl rfl,
   (C3_set_language_cases (loadedState [("a", Val.vstr "x")]) "en").2.1 rfl rfl,
   (C3_set_language_cases freshState "xx").2.2 rfl⟩

/-- C5 counterexample: with only a `"tr"` bundle loaded and `"ko"`
requested, `initialize` raises `ValueError` (`translations.py:62`) instead
of completing and falling back to the first loaded bundle's code. -/
theorem C5_counterexample_init_raises :
    (TranslationService.init freshState [("tr", some [("a", Val.vstr "x")])] "ko" false).raised = true
    ∧ (TranslationService.init freshState [("tr", some [("a", Val.vstr "x")])] "ko" false).state.current_language = "en"
    ∧ (TranslationService.init freshState [("tr", some [("a", Val.vstr "x")])] "ko" false).state.current_language ≠ "tr" := by
  refine ⟨rfl, rfl, ?_⟩
  decide

/-- C5 amended: whenever, after the load step, neither the requested
language nor `"en"` has a loaded bundle — even if other bundles loaded —
`initialize` raises `ValueError` and leaves the active pointer unchanged;
the first-loaded-bundle fallback exists only in the consistency audit's
reference-language choice, not in `initialize`. -/
theorem C5_init_no_fallback (s : TState) (fs : List (String × Option Bundle))
    (language : String) (debug : Bool)
    (hne : (TranslationService.init s fs language debug).state.translations ≠ [])
    (hlang : alookup (TranslationService.init s fs language debug).state.translations language = none)
    (hen : alookup (TranslationService.init s fs language debug).state.translations "en" = none) :
    (TranslationService.init s fs language debug).raised = true
    ∧ (TranslationService.init s fs language debug).state.current_language
        = s.current_language := by
  simp only [TranslationService.init] at *
  split_ifs at hlang hen ⊢ <;> simp_all [load_translations]

theorem C5_init_no_fallback_witness :
    (TranslationService.init freshState [("tr", some [("a", Val.vstr "x")])] "ko" true).raised = true
    ∧ (TranslationService.init freshState [("tr", some [("a", Val.vstr "x")])] "ko" true).state.current_language
        = freshState.current_language :=
  C5_init_no_fallback freshState [("tr", some [("a", Val.vstr "x")])] "ko" true
    (by simp [TranslationService.init, load_translations, assocSet, alookup, freshState])
    (by simp [TranslationService.init, load_translations, assocSet, alookup, freshState])
    (by simp [TranslationService.init, load_translations, assocSet, alookup, freshState])

/-- C10: with no loaded bundles, `validate_keys_consistency` returns the
empty report (modelled `none`) without raising. -/
theorem C10_empty_catalog_empty_report (s : TState) (h : s.translations = []) :
    TranslationService.validate_keys_consistency s = none := by
  simp only [TranslationService.validate_keys_consistency, h]

theorem C10_empty_catalog_empty_report_witness :
    TranslationService.validate_keys_consistency freshState = none :=
  C10_empty_catalog_empty_report freshState rfl

/-- C9: `get` mutates nothing but the missing-key diagnostic set: the
loaded bundle mapping, the active-language pointer, the loaded flag and
the debug flag are unchanged by every call, whatever the key, default and
placeholders. -/
theorem C9_get_frame (s : TState) (key default : String)
    (kwargs : List (String × String)) :
    (TranslationService.get s key default kwargs).snd.translations = s.translations
    ∧ (TranslationService.get s key default kwargs).snd.current_language = s.current_language
    ∧ (TranslationService.get s key default kwargs).snd.is_loaded = s.is_loaded
    ∧ (TranslationService.get s key default kwargs).snd.debug_mode = s.debug_mode := by
  simp only [TranslationService.get]
  repeat' split
  all_goals exact ⟨rfl, rfl, rfl, rfl⟩

/-- C8: the debug flag (and the contents of the missing-key diagnostic
set) never influence the value `get` returns: two calls on states that
differ only in those fields return the same result. -/
theorem C8_debug_mode_no_influence (s : TState) (d : Bool) (m : List String)
    (key default : String) (kwargs : List (String × String)) :
    (TranslationService.get { s with debug_mode := d, missing_keys := m } key default kwargs).fst
      = (TranslationService.get s key default kwargs).fst := by
  simp only [TranslationService.get, startVal]
  repeat' split
  all_goals simp_all

theorem mem_get_all_keys (m : Bundle) (pre : String) (x : String) :
    x ∈ get_all_keys m pre ↔ ∃ p, LeafPath m p ∧ x = pathJoin pre p := by
  induction m, pre using get_all_keys.induct with
  | case1 pre =>
    simp only [get_all_keys, Finset.not_mem_empty, false_iff]
    rintro ⟨p, hp, -⟩
    cases hp
  | case2 k str rest pre ih =>
    simp only [get_all_keys, Finset.mem_insert, ih]
    constructor
    · rintro (rfl | ⟨p, hp, rfl⟩)
      · exact ⟨[k], LeafPath.head_leaf k str rest, rfl⟩
      · exact ⟨p, LeafPath.tail _ hp, rfl⟩
    · rintro ⟨p, hp, rfl⟩
      cases hp with
      | head_leaf => exact Or.inl rfl
      | tail _ hp' => exact Or.inr ⟨_, hp', rfl⟩
  | case3 k sub rest pre ih1 ih2 =>
    simp only [get_all_keys, Finset.mem_union, ih1, ih2]
    constructor
    · rintro (⟨p, hp, rfl⟩ | ⟨p, hp, rfl⟩)
      · exact ⟨k :: p, LeafPath.head_node k rest hp, rfl⟩
      · exact ⟨p, LeafPath.tail _ hp, rfl⟩
    · rintro ⟨p, hp, rfl⟩
      cases hp with
      | head_node _ _ hp' => exact Or.inl ⟨_, hp', rfl⟩
      | tail _ hp' => exact Or.inr ⟨_, hp', rfl⟩

theorem finset_sort_eq_nil (t : Finset String) :
    t.sort (· ≤ ·) = [] ↔ t = ∅ := by
  constructor
  · intro ht
    ext a
    rw [← Finset.mem_sort (· ≤ ·), ht]
    simp
  · rintro rfl
    exact Finset.sort_empty (· ≤ ·)

/-- C6 counterexample: flattening is not exactly dot-joining: the bundle
with the single root-to-leaf path `["", "b"]` (an empty top-level segment
name) flattens to the key `"b"`, not to the dot-joined path `".b"`,
because the accumulator omits the dot when the accumulated prefix is empty
(`translations.py:256`). -/
theorem C6_counterexample_empty_segment :
    LeafPath [("", Val.vdict [("b", Val.vstr "x")])] ["", "b"]
    ∧ String.intercalate "." ["", "b"] = ".b"
    ∧ ".b" ∉ get_all_keys [("", Val.vdict [("b", Val.vstr "x")])] ""
    ∧ get_all_keys [("", Val.vdict [("b", Val.vstr "x")])] "" = {"b"} := by
  refine ⟨LeafPath.head_node "" [] (LeafPath.head_leaf "b" "x" []), rfl, ?_, ?_⟩
  · simp [get_all_keys, fullKey]
  · simp [get_all_keys, fullKey]

/-- C6 amended: with at least one loaded bundle the audit returns a
report whose reference is `"en"` when loaded (else the first loaded
language, which is recorded and always a loaded one); for every loaded
language, in catalog order, it reports the flattened key count, the
sorted missing keys (reference minus language), the sorted extra keys
(language minus reference) and consistency exactly when both lists are
empty; flattening emits exactly the accumulated joins of the
root-to-leaf paths of leaf values (never interior mappings), where each
segment is joined with a dot unless the accumulated prefix is empty — so
it agrees with plain dot-joining except on paths through empty top-level
segment names. -/
theorem C6_audit_report (s : TState) (h : s.translations ≠ []) :
    ∃ r, TranslationService.validate_keys_consistency s = some r
      ∧ (∀ (b : Bundle) (x : String),
          x ∈ get_all_keys b "" ↔ ∃ p, LeafPath b p ∧ x = pathJoin "" p)
      ∧ ((alookup s.translations "en").isSome = true → r.reference_language = "en")
      ∧ ∃ refB, alookup s.translations r.reference_language = some refB
        ∧ r.reference_key_count = (get_all_keys refB "").card
        ∧ List.Forall₂ (fun (tp : String × Bundle) (rp : String × LangReport) =>
            rp.1 = tp.1
            ∧ rp.2.key_count = (get_all_keys tp.2 "").card
            ∧ rp.2.missing_keys.Sorted (· ≤ ·)
            ∧ (∀ x, x ∈ rp.2.missing_keys ↔
                x ∈ get_all_keys refB "" ∧ x ∉ get_all_keys tp.2 "")
            ∧ rp.2.extra_keys.Sorted (· ≤ ·)
            ∧ (∀ x, x ∈ rp.2.extra_keys ↔
                x ∈ get_all_keys tp.2 "" ∧ x ∉ get_all_keys refB "")
            ∧ (rp.2.is_consistent = true ↔
                rp.2.missing_keys = [] ∧ rp.2.extra_keys = []))
          s.translations r.languages := by
  obtain ⟨cl, ts, il, dm, mk⟩ := s
  cases ts with
  | nil => exact absurd rfl h
  | cons p tl =>
    obtain ⟨l0, b0⟩ := p
    have href : ∃ refB, alookup ((l0, b0) :: tl)
        (if (alookup ((l0, b0) :: tl) "en").isSome then "en" else l0) = some refB := by
      rcases hen : alookup ((l0, b0) :: tl) "en" with _ | b
      · refine ⟨b0, ?_⟩
        simp [hen, alookup]
      · exact ⟨b, by simp [hen]⟩
    obtain ⟨refB, hrefB⟩ := href
    simp only [TranslationService.validate_keys_consistency]
    refine ⟨_, rfl, fun b x => mem_get_all_keys b "" x, ?_, refB, ?_, ?_, ?_⟩
    · intro hs
      simp only [hs]
      simp
    · simpa using hrefB
    · simp only []
      rw [hrefB]
      simp
    · simp only []
      rw [List.forall₂_map_right_iff, List.forall₂_same]
      rintro ⟨lang, tr⟩ hmem
      rw [hrefB]
      refine ⟨rfl, rfl, Finset.sort_sorted _ _, ?_, Finset.sort_sorted _ _, ?_, ?_⟩
      · intro x
        rw [Finset.mem_sort]
        simp [Finset.mem_sdiff]
      · intro x
        rw [Finset.mem_sort]
        simp [Finset.mem_sdiff]
      · simp only [Option.getD_some, Bool.and_eq_true, beq_iff_eq, Finset.card_eq_zero]
        constructor
        · rintro ⟨h1, h2⟩
          exact ⟨(finset_sort_eq_nil _).2 h1, (finset_sort_eq_nil _).2 h2⟩
        · rintro ⟨h1, h2⟩
          exact ⟨(finset_sort_eq_nil _).1 h1, (finset_sort_eq_nil _).1 h2⟩

theorem C6_audit_report_witness :
    ∃ r, TranslationService.validate_keys_consistency (loadedState [("a", Val.vstr "x")]) = some r := by
  obtain ⟨r, hr, -⟩ := C6_audit_report (loadedState [("a", Val.vstr "x")]) (by simp [loadedState])
  exact ⟨r, hr⟩

theorem go_none_cons_other (kwargs : List (String × String)) (c : Char) (l : List Char)
    (h1 : c ≠ '{') (h2 : c ≠ '}') :
    pyFormatGo kwargs none (c :: l) = (fun r => c.toString ++ r) <$> pyFormatGo kwargs none l := by
  rw [pyFormatGo.eq_def]
  simp [h1, h2]

theorem go_some_cons_other (kwargs : List (String × String)) (acc : List Char) (c : Char)
    (l : List Char) (h1 : c ≠ '{') (h2 : c ≠ '}') :
    pyFormatGo kwargs (some acc) (c :: l) = pyFormatGo kwargs (some (c :: acc)) l := by
  rw [pyFormatGo.eq_def]
  simp [h1, h2]

theorem go_none_open (kwargs : List (String × String)) (rest : List Char)
    (h : ∀ c, rest.head? = some c → c ≠ '{') :
    pyFormatGo kwargs none ('{' :: rest) = pyFormatGo kwargs (some []) rest := by
  cases rest with
  | nil => rfl
  | cons c l =>
    rw [pyFormatGo.eq_def]
    simp [h c rfl]

theorem go_some_close (kwargs : List (String × String)) (acc : List Char) (l : List Char) :
    pyFormatGo kwargs (some acc) ('}' :: l) =
      (substField kwargs acc.reverse) >>= fun v =>
        (fun r => v ++ r) <$> pyFormatGo kwargs none l := by
  rw [pyFormatGo.eq_def]
  simp

theorem substField_name (kwargs : List (String × String)) (n : String)
    (hne : n ≠ "") (hdig : ¬(n.data.all Char.isDigit = true))
    (hok : ∀ c ∈ n.data, nameCharOk c) :
    substField kwargs n.data =
      (match alookup kwargs n with
       | none => Except.error (PyErr.keyError n)
       | some v => Except.ok v) := by
  have hnp : n.data.takeWhile (fun c => c != '!' && c != ':') = n.data := by
    rw [List.takeWhile_eq_self_iff]
    intro c hc
    obtain ⟨-, -, h3, h4, -, -⟩ := hok c hc
    simp [h3, h4]
  have hbase : n.data.takeWhile (fun c => c != '.' && c != '[') = n.data := by
    rw [List.takeWhile_eq_self_iff]
    intro c hc
    obtain ⟨-, -, -, -, h5, h6⟩ := hok c hc
    simp [h5, h6]
  have hdat : n.data ≠ [] := by
    intro hd
    exact hne (by cases n with | mk d => simp_all)
  simp only [substField, hnp, hbase]
  rw [if_neg]
  · have heta : ({ data := n.data } : String) = n := rfl
    rw [heta]
    rcases alookup kwargs n with _ | v <;> simp
  · simp only [Bool.or_eq_true, List.isEmpty_iff]
    rintro (hx | hx)
    · exact hdat hx
    · exact hdig hx

theorem go_lit (kwargs : List (String × String)) (cs l : List Char)
    (hok : ∀ c ∈ cs, c ≠ '{' ∧ c ≠ '}') :
    pyFormatGo kwargs none (cs ++ l) =
      (fun r => String.mk cs ++ r) <$> pyFormatGo kwargs none l := by
  induction cs with
  | nil =>
    simp only [List.nil_append]
    cases hres : pyFormatGo kwargs none l <;> rfl
  | cons c cs ih =>
    have hc := hok c (by simp)
    have ihh := ih (fun c' hc' => hok c' (by simp [hc']))
    rw [List.cons_append, go_none_cons_other kwargs c (cs ++ l) hc.1 hc.2, ihh]
    cases hres : pyFormatGo kwargs none l <;> rfl

theorem go_field_acc (kwargs : List (String × String)) (nd : List Char) (acc : List Char)
    (l : List Char) (hok : ∀ c ∈ nd, c ≠ '{' ∧ c ≠ '}') :
    pyFormatGo kwargs (some acc) (nd ++ '}' :: l) =
      (substField kwargs (acc.reverse ++ nd)) >>= fun v =>
        (fun r => v ++ r) <$> pyFormatGo kwargs none l := by
  induction nd generalizing acc with
  | nil => simpa using go_some_close kwargs acc l
  | cons c nd ih =>
    have hc := hok c (by simp)
    rw [List.cons_append, go_some_cons_other kwargs acc c _ hc.1 hc.2,
      ih (c :: acc) (fun c' h' => hok c' (by simp [h']))]
    simp [List.append_assoc]

theorem go_field (kwargs : List (String × String)) (n : String) (l : List Char)
    (hne : n ≠ "") (hdig : ¬(n.data.all Char.isDigit = true))
    (hok : ∀ c ∈ n.data, nameCharOk c) :
    pyFormatGo kwargs none ('{' :: (n.data ++ '}' :: l)) =
      (match alookup kwargs n with
       | none => Except.error (PyErr.keyError n)
       | some v => (fun r => v ++ r) <$> pyFormatGo kwargs none l) := by
  rw [go_none_open, go_field_acc kwargs n.data [] l (fun c h => ⟨(hok c h).1, (hok c h).2.1⟩)]
  · simp only [List.reverse_nil, List.nil_append]
    rw [substField_name kwargs n hne hdig hok]
    rcases alookup kwargs n with _ | v <;> rfl
  · intro c hc
    cases hnd : n.data with
    | nil =>
      rw [hnd] at hc
      simp at hc
      rw [← hc]
      decide
    | cons d nd' =>
      rw [hnd] at hc
      simp at hc
      rw [← hc]
      exact (hok d (by rw [hnd]; simp)).1

theorem data_renderChunks_cons (ch : Chunk) (cs : List Chunk) :
    (renderChunks (ch :: cs)).data = (renderChunk ch).data ++ (renderChunks cs).data := by
  simp [renderChunks, String.data_append]

theorem pyFormat_render_ok (kwargs : List (String × String)) (cs : List Chunk)
    (hok : ∀ ch ∈ cs, chunkOk ch)
    (hall : ∀ n, Chunk.fld n ∈ cs → (alookup kwargs n).isSome = true) :
    pyFormatGo kwargs none (renderChunks cs).data = .ok (substChunks kwargs cs) := by
  induction cs with
  | nil => rfl
  | cons ch cs ih =>
    have ihh := ih (fun c hc => hok c (by simp [hc])) (fun n hn => hall n (by simp [hn]))
    rw [data_renderChunks_cons]
    cases ch with
    | lit t =>
      have hl : ∀ c ∈ t.data, c ≠ '{' ∧ c ≠ '}' := fun c hc => hok (.lit t) (by simp) c hc
      rw [show (renderChunk (Chunk.lit t)).data = t.data from rfl, go_lit kwargs t.data _ hl, ihh]
      rfl
    | fld n =>
      obtain ⟨hne, hdig, hnok⟩ := hok (.fld n) (by simp)
      have hdata : (renderChunk (Chunk.fld n)).data ++ (renderChunks cs).data
          = '{' :: (n.data ++ '}' :: (renderChunks cs).data) := by
        simp [renderChunk, String.data_append]
      rw [hdata, go_field kwargs n _ hne hdig hnok]
      rcases hlk : alookup kwargs n with _ | v
      · exact absurd (hall n (by simp)) (by simp [hlk])
      · rw [ihh]
        simp [substChunks, substChunk, hlk]

theorem pyFormat_render_missing (kwargs : List (String × String)) (cs : List Chunk)
    (hok : ∀ ch ∈ cs, chunkOk ch)
    (hmiss : ∃ n, Chunk.fld n ∈ cs ∧ alookup kwargs n = none) :
    ∃ n', pyFormatGo kwargs none (renderChunks cs).data = .error (.keyError n')
      ∧ alookup kwargs n' = none := by
  induction cs with
  | nil => simp at hmiss
  | cons ch cs ih =>
    rw [data_renderChunks_cons]
    cases ch with
    | lit t =>
      have hl : ∀ c ∈ t.data, c ≠ '{' ∧ c ≠ '}' := fun c hc => hok (.lit t) (by simp) c hc
      obtain ⟨n, hn, hlk⟩ := hmiss
      have hn' : Chunk.fld n ∈ cs := by
        rcases List.mem_cons.1 hn with h | h
        · exact absurd h (by simp)
        · exact h
      obtain ⟨n', hres, hlk'⟩ := ih (fun c hc => hok c (by simp [hc])) ⟨n, hn', hlk⟩
      rw [show (renderChunk (Chunk.lit t)).data = t.data from rfl, go_lit kwargs t.data _ hl, hres]
      exact ⟨n', rfl, hlk'⟩
    | fld n =>
      obtain ⟨hne, hdig, hnok⟩ := hok (.fld n) (by simp)
      have hdata : (renderChunk (Chunk.fld n)).data ++ (renderChunks cs).data
          = '{' :: (n.data ++ '}' :: (renderChunks cs).data) := by
        simp [renderChunk, String.data_append]
      rw [hdata, go_field kwargs n _ hne hdig hnok]
      rcases hlk : alookup kwargs n with _ | v
      · exact ⟨n, rfl, hlk⟩
      · obtain ⟨m, hm, hmlk⟩ := hmiss
        have hm' : Chunk.fld m ∈ cs := by
          rcases List.mem_cons.1 hm with h | h
          · cases h
            simp [hlk] at hmlk
          · exact h
        obtain ⟨n', hres, hlk'⟩ := ih (fun c hc => hok c (by simp [hc])) ⟨m, hm', hmlk⟩
        rw [hres]
        exact ⟨n', rfl, hlk'⟩

/-- C4 counterexample: a key resolving to the empty leaf template does not
come back verbatim: the truthiness test `result = value if value else
default` (`translations.py:160`) replaces the empty template by the
caller's default even with no placeholders supplied. -/
theorem C4_counterexample_empty_template :
    (TranslationService.get (loadedState [("k", Val.vstr "")]) "k" "DEFAULT" []).fst
      = GetResult.retn (Val.vstr "DEFAULT")
    ∧ (TranslationService.get (loadedState [("k", Val.vstr "")]) "k" "DEFAULT" []).fst
      ≠ GetResult.retn (Val.vstr "") := by
  constructor
  · rfl
  · simp [TranslationService.get, loadedState, startVal, splitKey, pySplit, walk, alookup,
      Val.truthy]

/-- C4 amended: for every key resolving to a non-empty leaf template whose
text is literal pieces free of brace characters interleaved with simple
named replacement fields: with no placeholder keyword arguments the
template is returned verbatim (no substitution attempted); with
placeholders supplied and some field naming a placeholder absent from
them, the template is returned unmodified with its literal field tokens
intact (the `KeyError` is caught, nothing partially substituted); with
every named placeholder supplied, every field is replaced by its value.
(The restriction to non-empty well-formed templates is forced: the empty
template falls back to the default, and malformed brace syntax makes
`str.format` raise an uncaught `ValueError`.) -/
theorem C4_placeholder_substitution (s : TState) (key default : String)
    (cs : List Chunk) (kwargs : List (String × String))
    (hl : s.is_loaded = true)
    (hw : walk (startVal s) (splitKey key) = some (Val.vstr (renderChunks cs)))
    (hne : renderChunks cs ≠ "")
    (hok : ∀ ch ∈ cs, chunkOk ch) :
    ((TranslationService.get s key default []).fst
        = GetResult.retn (Val.vstr (renderChunks cs)))
    ∧ (kwargs ≠ [] → (∃ n, Chunk.fld n ∈ cs ∧ alookup kwargs n = none) →
        (TranslationService.get s key default kwargs).fst
          = GetResult.retn (Val.vstr (renderChunks cs)))
    ∧ (kwargs ≠ [] → (∀ n, Chunk.fld n ∈ cs → (alookup kwargs n).isSome = true) →
        (TranslationService.get s key default kwargs).fst
          = GetResult.retn (Val.vstr (substChunks kwargs cs))) := by
  have htr : (Val.vstr (renderChunks cs)).truthy = true := by
    simp [Val.truthy]
    exact hne
  refine ⟨?_, ?_, ?_⟩
  · simp [TranslationService.get, hl, hw, htr]
  · intro hk hmiss
    obtain ⟨n', hres, hlk'⟩ := pyFormat_render_missing kwargs cs hok hmiss
    cases kwargs with
    | nil => exact absurd rfl hk
    | cons a tl =>
      simp [TranslationService.get, hl, hw, htr, pyFormat, hres]
  · intro hk hall
    have hres := pyFormat_render_ok kwargs cs hok hall
    cases kwargs with
    | nil => exact absurd rfl hk
    | cons a tl =>
      simp [TranslationService.get, hl, hw, htr, pyFormat, hres]

theorem C4_placeholder_substitution_witness :
    (TranslationService.get (loadedState [("k", Val.vstr "Age must be at least {min}")])
        "k" "D" [("min", "18")]).fst
      = GetResult.retn (Val.vstr "Age must be at least 18") := by
  have h := (C4_placeholder_substitution
      (loadedState [("k", Val.vstr "Age must be at least {min}")]) "k" "D"
      [Chunk.lit "Age must be at least ", Chunk.fld "min"] [("min", "18")]
      rfl rfl (by decide) (by decide)).2.2 (by simp)
      (by intro n hn; simp at hn; subst hn; rfl)
  exact h
